import Mathlib

/-!
Verification development for a tree-walking interpreter (C++ sources:
`src/resolver.cpp`, `src/function.cpp`, `include/interpreter.hpp`,
`include/callable.hpp`).  The resolver and the function-call protocol are
shallowly embedded below; every definition mirrors the corresponding C++
entity, with in-place AST mutation rendered as returning the updated node,
and C++ exception unwinding rendered as an explicit pending-error slot that
skips the remainder of the throwing visit function.

Representation conventions:
* `Token` is modelled by its lexeme, the only field the resolver and the
  binder loop consult (error tokens are likewise carried by lexeme).
* the resolver's `std::vector<std::unordered_map<std::string,bool>> scopes`
  is a `List Scope` in vector order: index 0 is the outermost local scope
  and `getLast` is `scopes.back()`, the innermost.
* an unordered map is an association list; only `contains`, `at`, `emplace`
  and `insert_or_assign` are used, none of which depend on bucket order.
-/

/-- Function kinds carried by `FunctionStmt::child<3>()`; the spelling
`LAMDBDA` follows the source (`resolver.cpp` line 159). -/
inductive FunctionKind where
  | FUNCTION
  | METHOD
  | LAMDBDA
  | CONSTRUCTOR
  | UNBOUND
deriving DecidableEq, Repr

/-- Class kinds tracked by the resolver (`class_kind`). -/
inductive ClassKind where
  | NONE
  | CLASS
deriving DecidableEq, Repr

/-- The compile-time diagnostics the resolver can raise, one constructor per
`throw CompiletimeError(...)` site in `resolver.cpp`. -/
inductive RErrKind where
  | duplicateDeclaration
  | selfInitializer
  | returnTopLevel
  | returnValueFromInit
  | thisOutsideClass
  | thisInUnbound
deriving DecidableEq, Repr

/-- A `CompiletimeError` value: offending token (lexeme) and which
diagnostic was raised. -/
structure CompiletimeError where
  token : String
  kind : RErrKind
deriving DecidableEq, Repr

mutual

/-- Expression nodes, one constructor per `Resolver::visit` overload on
expressions.  `Variable`, `Assign` and `This` carry the mutable resolved
`depth` slot (`Option Nat`, unset = global lookup). -/
inductive Expr where
  | Literal : Expr
  | Variable (name : String) (depth : Option Nat) : Expr
  | Assign (name : String) (value : Expr) (depth : Option Nat) : Expr
  | Lambda (params : List String) (body : List Stmt) : Expr
  | Binary (lhs : Expr) (rhs : Expr) : Expr
  | Call (callee : Expr) (args : List Expr) : Expr
  | Grouping (inner : Expr) : Expr
  | Logical (lhs : Expr) (rhs : Expr) : Expr
  | Unary (operand : Expr) : Expr
  | Ternary (cond : Expr) (thenE : Expr) (elseE : Expr) : Expr
  | Get (obj : Expr) : Expr
  | Set (obj : Expr) (value : Expr) : Expr
  | This (name : String) (depth : Option Nat) : Expr
  | Empty : Expr
  | Malformed : Expr

/-- Statement nodes, one constructor per `Resolver::visit` overload on
statements. -/
inductive Stmt where
  | ExprStmt (e : Expr) : Stmt
  | PrintStmt (e : Expr) : Stmt
  | VarStmt (name : String) (initE : Expr) : Stmt
  | BlockStmt (body : List Stmt) : Stmt
  | IfStmt (cond : Expr) (thenS : Stmt) (elseS : Stmt) : Stmt
  | WhileStmt (cond : Expr) (body : Stmt) : Stmt
  | FunctionDecl (f : FunctionStmt) : Stmt
  | ReturnStmt (keyword : String) (value : Expr) : Stmt
  | ClassStmt (name : String) (methods : List FunctionStmt) : Stmt
  | EmptyStmt : Stmt
  | MalformedStmt : Stmt

/-- A `FunctionStmt` node: children 0..3 are name, parameters, body and
function kind; `ClassStmt` holds a list of these for its methods. -/
inductive FunctionStmt where
  | mk (name : String) (params : List String) (body : List Stmt)
      (kind : FunctionKind) : FunctionStmt

end

/-- Child 0 of a `FunctionStmt`. -/
def FunctionStmt.name : FunctionStmt → String
  | .mk n _ _ _ => n

/-- Child 1 of a `FunctionStmt`. -/
def FunctionStmt.params : FunctionStmt → List String
  | .mk _ p _ _ => p

/-- Child 2 of a `FunctionStmt`. -/
def FunctionStmt.body : FunctionStmt → List Stmt
  | .mk _ _ b _ => b

/-- Child 3 of a `FunctionStmt`. -/
def FunctionStmt.kind : FunctionStmt → FunctionKind
  | .mk _ _ _ k => k

/-- One resolver scope: `unordered_map<string, bool>` as an association
list. -/
abbrev Scope := List (String × Bool)

/-- `scope.contains(name)`. -/
def scopeContains (s : Scope) (n : String) : Bool :=
  s.any (fun p => p.1 == n)

/-- `scope.at(name)` (callers only use it under a `contains` check; absent
keys default to `false`). -/
def scopeAt (s : Scope) (n : String) : Bool :=
  ((s.find? (fun p => p.1 == n)).map Prod.snd).getD false

/-- `scope.emplace(name, v)`: inserts only when the key is absent; the
`Bool` result is `emplace(...).second`. -/
def scopeEmplace (s : Scope) (n : String) (v : Bool) : Scope × Bool :=
  if scopeContains s n then (s, false) else ((n, v) :: s, true)

/-- `scope.insert_or_assign(name, v)`. -/
def scopeAssign (s : Scope) (n : String) (v : Bool) : Scope :=
  if scopeContains s n then
    s.map (fun p => if p.1 == n then (p.1, v) else p)
  else (n, v) :: s

/-- Rewrite the last element of a list (`scopes.back()` as mutation
target). -/
def modifyBack (f : Scope → Scope) : List Scope → List Scope
  | [] => []
  | [s] => [f s]
  | s :: rest => s :: modifyBack f rest

/-- `scopes.back()` (callers guard on non-emptiness; default `[]`). -/
def backScope : List Scope → Scope
  | [] => []
  | [s] => s
  | _ :: rest => backScope rest

/-- The resolver's mutable state: scope stack, the enclosing function-kind
context, the enclosing class-kind context, and the diagnostics delivered to
`err_handler` so far. -/
structure RState where
  scopes : List Scope
  functionKind : Option FunctionKind
  classKind : ClassKind
  errors : List CompiletimeError
deriving Repr

/-- A fresh `Resolver`, as constructed before `resolve` runs on a
program. -/
def initialRState : RState :=
  { scopes := [], functionKind := none, classKind := .NONE, errors := [] }

/-- `scopes.emplace_back()`. -/
def pushScope (st : RState) : RState :=
  { st with scopes := st.scopes ++ [[]] }

/-- `scopes.pop_back()`. -/
def popScope (st : RState) : RState :=
  { st with scopes := st.scopes.dropLast }

/-- `Resolver::declare` (`resolver.cpp` lines 35-44): no-op on an empty
scope stack; otherwise emplaces `name -> false` in the innermost scope and
throws `duplicateDeclaration` when the name is already present there. -/
def declare (st : RState) (t : String) : RState × Option CompiletimeError :=
  if st.scopes.isEmpty then (st, none)
  else if scopeContains (backScope st.scopes) t then
    (st, some ⟨t, .duplicateDeclaration⟩)
  else
    ({ st with scopes := modifyBack (fun s => (t, false) :: s) st.scopes }, none)

/-- `Resolver::define` (`resolver.cpp` lines 46-52): no-op on an empty
scope stack; otherwise `insert_or_assign(name, true)` on the innermost
scope. -/
def define (st : RState) (t : String) : RState :=
  if st.scopes.isEmpty then st
  else { st with scopes := modifyBack (fun s => scopeAssign s t true) st.scopes }

/-- The downward index loop of `Resolver::resolve_local` (lines 97-106):
`scanGo scopes t f` inspects indices `f-1, f-2, ..., 0` and yields
`scopes.size() - 1 - i` for the first hit. -/
def scanGo (scopes : List Scope) (t : String) : Nat → Option Nat
  | 0 => none
  | i + 1 =>
    if scopeContains (scopes.getD i []) t then some (scopes.length - 1 - i)
    else scanGo scopes t i

/-- `Resolver::resolve_local`'s scan result for a name. -/
def resolveLocalDepth (scopes : List Scope) (t : String) : Option Nat :=
  scanGo scopes t scopes.length

/-- The effect of `resolve_local` on the node's depth slot: overwritten on
a hit, left untouched in the fall-through case. -/
def updateDepth (scopes : List Scope) (t : String) (d : Option Nat) : Option Nat :=
  match resolveLocalDepth scopes t with
  | some k => some k
  | none => d

/-- The guard of `Resolver::visit(Variable&)` (line 75): the name exists in
the innermost scope and is still marked uninitialized. -/
def selfInitCheck (st : RState) (t : String) : Bool :=
  !st.scopes.isEmpty && scopeContains (backScope st.scopes) t
    && !(scopeAt (backScope st.scopes) t)

/-- The `declare`/`define` loop over parameters in
`Resolver::resolve_function` (lines 137-141); a throwing `declare` aborts
the loop with the state as mutated so far. -/
def declareParams (st : RState) : List String → RState × Option CompiletimeError
  | [] => (st, none)
  | p :: ps =>
    match declare st p with
    | (st', some e) => (st', some e)
    | (st', none) => declareParams (define st' p) ps

/-- The test `dynamic_cast<Empty*>(node.child<1>().get())` used by
`Resolver::visit(ReturnStmt&)`. -/
def isEmptyE : Expr → Bool
  | .Empty => true
  | _ => false

mutual

/-- `Resolver::resolve(const expr&)` dispatched through the per-node
`visit` overloads of `resolver.cpp`.  The result is the annotated node, the
resolver state, and a pending `CompiletimeError` when the visit threw; a
pending error skips the remainder of the throwing visit, leaving the
mutations performed so far in place (C++ stack unwinding over in-place
mutation). -/
def resolveExpr (st : RState) : Expr → Expr × RState × Option CompiletimeError
  | .Literal => (.Literal, st, none)
  | .Variable n d =>
    if selfInitCheck st n then (.Variable n d, st, some ⟨n, .selfInitializer⟩)
    else (.Variable n (updateDepth st.scopes n d), st, none)
  | .Assign n v d =>
    match resolveExpr st v with
    | (v', st', some e) => (.Assign n v' d, st', some e)
    | (v', st', none) => (.Assign n v' (updateDepth st'.scopes n d), st', none)
  | .Lambda ps b =>
    match resolveFunctionBody st ps b .LAMDBDA with
    | (b', st', r) => (.Lambda ps b', st', r)
  | .Binary l r =>
    match resolveExpr st l with
    | (l', st', some e) => (.Binary l' r, st', some e)
    | (l', st', none) =>
      match resolveExpr st' r with
      | (r', st'', r2) => (.Binary l' r', st'', r2)
  | .Call c args =>
    match resolveExpr st c with
    | (c', st', some e) => (.Call c' args, st', some e)
    | (c', st', none) =>
      match resolveArgs st' args with
      | (args', st'', r2) => (.Call c' args', st'', r2)
  | .Grouping g =>
    match resolveExpr st g with
    | (g', st', r) => (.Grouping g', st', r)
  | .Logical l r =>
    match resolveExpr st l with
    | (l', st', some e) => (.Logical l' r, st', some e)
    | (l', st', none) =>
      match resolveExpr st' r with
      | (r', st'', r2) => (.Logical l' r', st'', r2)
  | .Unary x =>
    match resolveExpr st x with
    | (x', st', r) => (.Unary x', st', r)
  | .Ternary a b c =>
    match resolveExpr st a with
    | (a', st', some e) => (.Ternary a' b c, st', some e)
    | (a', st', none) =>
      match resolveExpr st' b with
      | (b', st2, some e) => (.Ternary a' b' c, st2, some e)
      | (b', st2, none) =>
        match resolveExpr st2 c with
        | (c', st3, r) => (.Ternary a' b' c', st3, r)
  | .Get o =>
    match resolveExpr st o with
    | (o', st', r) => (.Get o', st', r)
  | .Set o v =>
    match resolveExpr st o with
    | (o', st', some e) => (.Set o' v, st', some e)
    | (o', st', none) =>
      match resolveExpr st' v with
      | (v', st'', r2) => (.Set o' v', st'', r2)
  | .This n d =>
    if st.classKind = .NONE then (.This n d, st, some ⟨n, .thisOutsideClass⟩)
    else if st.functionKind = some .UNBOUND then
      (.This n d, st, some ⟨n, .thisInUnbound⟩)
    else (.This n (updateDepth st.scopes n d), st, none)
  | .Empty => (.Empty, st, none)
  | .Malformed => (.Malformed, st, none)
termination_by e => (sizeOf e, 0)

/-- The argument loop of `Resolver::visit(Call&)`: each argument is
resolved by the non-catching expression overload, so a throw aborts the
loop with the remaining arguments untouched. -/
def resolveArgs (st : RState) : List Expr → List Expr × RState × Option CompiletimeError
  | [] => ([], st, none)
  | a :: as =>
    match resolveExpr st a with
    | (a', st', some e) => (a' :: as, st', some e)
    | (a', st', none) =>
      match resolveArgs st' as with
      | (as', st'', r) => (a' :: as', st'', r)
termination_by l => (sizeOf l, 0)

/-- The statement `visit` overloads of `resolver.cpp` (reached through
`accept`, before the catch in `Resolver::resolve(const stmt&)`). -/
def resolveStmtV (st : RState) : Stmt → Stmt × RState × Option CompiletimeError
  | .ExprStmt e =>
    match resolveExpr st e with
    | (e', st', r) => (.ExprStmt e', st', r)
  | .PrintStmt e =>
    match resolveExpr st e with
    | (e', st', r) => (.PrintStmt e', st', r)
  | .VarStmt n i =>
    match declare st n with
    | (st', some e) => (.VarStmt n i, st', some e)
    | (st', none) =>
      match resolveExpr st' i with
      | (i', st'', some e) => (.VarStmt n i', st'', some e)
      | (i', st'', none) => (.VarStmt n i', define st'' n, none)
  | .BlockStmt body =>
    match resolveStmts (pushScope st) body with
    | (body', st') => (.BlockStmt body', popScope st', none)
  | .IfStmt c t e =>
    match resolveExpr st c with
    | (c', st', some er) => (.IfStmt c' t e, st', some er)
    | (c', st', none) =>
      match resolveStmtTop st' t with
      | (t', st2) =>
        match resolveStmtTop st2 e with
        | (e', st3) => (.IfStmt c' t' e', st3, none)
  | .WhileStmt c b =>
    match resolveExpr st c with
    | (c', st', some er) => (.WhileStmt c' b, st', some er)
    | (c', st', none) =>
      match resolveStmtTop st' b with
      | (b', st2) => (.WhileStmt c' b', st2, none)
  | .FunctionDecl (.mk n ps b k) =>
    match declare st n with
    | (st', some e) => (.FunctionDecl (.mk n ps b k), st', some e)
    | (st', none) =>
      match resolveFunctionBody (define st' n) ps b k with
      | (b', st3, r) => (.FunctionDecl (.mk n ps b' k), st3, r)
  | .ReturnStmt kw v =>
    if st.functionKind = none then
      (.ReturnStmt kw v, st, some ⟨kw, .returnTopLevel⟩)
    else if st.functionKind = some .CONSTRUCTOR ∧ isEmptyE v = false then
      (.ReturnStmt kw v, st, some ⟨kw, .returnValueFromInit⟩)
    else
      match resolveExpr st v with
      | (v', st', r) => (.ReturnStmt kw v', st', r)
  | .ClassStmt n ms =>
    let prev := st.classKind
    match declare { st with classKind := .CLASS } n with
    | (st2, some e) => (.ClassStmt n ms, st2, some e)
    | (st2, none) =>
      let st4 := { define st2 n with scopes := (define st2 n).scopes ++ [[("this", true)]] }
      match resolveMethods st4 ms with
      | (ms', st5, some e) => (.ClassStmt n ms', st5, some e)
      | (ms', st5, none) =>
        (.ClassStmt n ms', { popScope st5 with classKind := prev }, none)
  | .EmptyStmt => (.EmptyStmt, st, none)
  | .MalformedStmt => (.MalformedStmt, st, none)
termination_by s => (sizeOf s, 0)

/-- `Resolver::resolve(const stmt&)` (lines 15-25): runs the visit and
catches a `CompiletimeError`, reporting it through
`interpreter.err_handler->error`. -/
def resolveStmtTop (st : RState) (s : Stmt) : Stmt × RState :=
  match resolveStmtV st s with
  | (s', st', none) => (s', st')
  | (s', st', some e) => (s', { st' with errors := st'.errors ++ [e] })
termination_by (sizeOf s, 1)

/-- `Resolver::resolve(const std::vector<stmt>&)` (lines 27-33). -/
def resolveStmts (st : RState) : List Stmt → List Stmt × RState
  | [] => ([], st)
  | s :: ss =>
    match resolveStmtTop st s with
    | (s', st') =>
      match resolveStmts st' ss with
      | (ss', st'') => (s' :: ss', st'')
termination_by l => (sizeOf l, 0)

/-- `Resolver::resolve_function` (lines 130-155): saves and swaps the
function-kind context, pushes the parameter scope, declares/defines each
parameter, pushes the body scope, resolves the body, pops both scopes and
restores the context.  A throw from a parameter `declare` skips both pops
and the context restore. -/
def resolveFunctionBody (st : RState) (params : List String) (body : List Stmt)
    (type : FunctionKind) : List Stmt × RState × Option CompiletimeError :=
  let enclosing := st.functionKind
  match declareParams (pushScope { st with functionKind := some type }) params with
  | (st2, some e) => (body, st2, some e)
  | (st2, none) =>
    match resolveStmts (pushScope st2) body with
    | (body', st4) =>
      (body', { popScope (popScope st4) with functionKind := enclosing }, none)
termination_by (sizeOf body, 1)

/-- The method loop of `Resolver::visit(ClassStmt&)` (lines 190-197): a
method literally named `init` has its kind field overwritten with
`CONSTRUCTOR` before `resolve_function` runs on it; a throw from
`resolve_function` aborts the loop, leaving later methods untouched. -/
def resolveMethods (st : RState) : List FunctionStmt → List FunctionStmt × RState × Option CompiletimeError
  | [] => ([], st, none)
  | (.mk n ps b k) :: ms =>
    let k2 := if n == "init" then FunctionKind.CONSTRUCTOR else k
    match resolveFunctionBody st ps b k2 with
    | (b', st', some e) => ((.mk n ps b' k2) :: ms, st', some e)
    | (b', st', none) =>
      match resolveMethods st' ms with
      | (ms', st'', r) => ((.mk n ps b' k2) :: ms', st'', r)
termination_by l => (sizeOf l, 0)

end

/-- A full run of the resolution pass on a program, from a freshly
constructed `Resolver` (`interpret` runs exactly this before
execution). -/
def resolveProgram (p : List Stmt) : List Stmt × RState :=
  resolveStmts initialRState p

/-- Runtime values (`Token::Value`): the variants named in the spec's value
model.  The `Number` payload (a C++ `double`) is opaque to every property
proved here — no claim computes with numbers — and is carried as an
uninterpreted `Int`. -/
inductive Value where
  | NullType
  | Boolean (b : Bool)
  | Number (n : Int)
  | Str (s : String)
deriving DecidableEq, Repr

/-- Modelled from the spec: the `Environment` class (its header is not
among the shown sources) — "a name→value mapping plus an optional
reference to an enclosing frame" (§3). -/
inductive Environment where
  | mk (values : List (String × Value)) (enclosing : Option Environment)

/-- The name→value mapping of a frame. -/
def Environment.values : Environment → List (String × Value)
  | .mk v _ => v

/-- The optional enclosing frame of a frame. -/
def Environment.enclosingEnv : Environment → Option Environment
  | .mk _ e => e

/-- Modelled from the spec: `Environment::define` — "inserts into the
current frame (overwrite allowed)" (§4.2).  Used by the parameter-binding
loop of `Function::call`. -/
def Environment.define (env : Environment) (n : String) (v : Value) : Environment :=
  .mk ((n, v) :: env.values.filter (fun p => p.1 ≠ n)) env.enclosingEnv

/-- The interpreter state visible to `Function::call`: its current
environment (`interpreter.environment`, `interpreter.hpp` line 36). -/
structure InterpreterState where
  environment : Environment

namespace Interp

/-- A user `Function` object: per `Function::Function` (`function.cpp`
lines 5-8) it stores the declaration node and nothing else — in
particular, no environment is captured at definition time.  (The C++
class is named `Function`; it lives in the `Interp` namespace here only
because the bare name collides with the `Function` namespace of the
ambient library.) -/
structure Function where
  declaration : FunctionStmt

/-- `Function::arity` (`function.cpp` line 37): `declaration->child<1>().size()`. -/
def Function.arity (f : Function) : Nat :=
  f.declaration.params.length

/-- The environment constructed by `Function::call` before parameter
binding (`function.cpp` line 14): `Environment environment{&interpreter.environment}`
— a fresh frame whose enclosing frame is the interpreter's *current*
environment at the moment of the call. -/
def Function.callInitialEnv (f : Function) (interp : InterpreterState) : Environment :=
  .mk [] (some interp.environment)

end Interp

/-- The parameter-binding loop of `Function::call` (`function.cpp` lines
18-23): for each index `i` below `parameters.size()`, reads
`arguments[i]` and defines the parameter in the new frame.  `arguments[i]`
is modelled as fallible list access: `none` marks the out-of-bounds read
the C++ loop would perform when the arguments run out. -/
def bindParamsLoop (env : Environment) : List String → List Value → Option Environment
  | [], _ => some env
  | _ :: _, [] => none
  | p :: ps, a :: as => bindParamsLoop (env.define p a) ps as

/-- What can unwind out of executing a function body: the `Interpreter::Return`
signal (`interpreter.hpp` lines 39-43) or a runtime error. -/
inductive RuntimeErrKind where
  | StackOverflow
  | UndefinedVariable
  | TypeMismatch
  | ArityMismatch
  | NotCallable
  | UndefinedProperty
deriving DecidableEq, Repr

/-- A C++ exception in flight during interpretation: either the `Return`
signal carrying a value, or a runtime error. -/
inductive ThrownSignal where
  | ReturnSignal (val : Value)
  | RuntimeErrorS (e : RuntimeErrKind)
deriving DecidableEq, Repr

/-- The call boundary of `Function::call` (`function.cpp` lines 25-35):
given the outcome of executing the body block (normal completion, or a
thrown signal), the call catches `Interpreter::Return` and yields its
value, yields `NullType{}` on normal completion, and lets every other
exception keep unwinding. -/
def Interp.Function.callOutcome (f : Interp.Function) (bodyResult : Except ThrownSignal Unit) :
    Except ThrownSignal Value :=
  match bodyResult with
  | .ok _ => .ok .NullType
  | .error (.ReturnSignal v) => .ok v
  | .error (.RuntimeErrorS e) => .error (.RuntimeErrorS e)

/-- `Interpreter::CheckedRecursiveDepth::MAX_RECURSION_DEPTH`
(`interpreter.hpp` line 63). -/
def MAX_RECURSION_DEPTH : Nat := 1000

/-- Modelled from the spec: the constructor of
`Interpreter::CheckedRecursiveDepth` (declared at `interpreter.hpp` lines
51-64; its body lives in the unshown `interpreter.cpp`) — "If incrementing
would exceed a fixed ceiling (1000), the call is refused and a
`StackOverflow` error is raised before any work begins"; otherwise the
depth counter is incremented (§4.5). -/
def checkedDepthEnter (depth : Nat) : Except RuntimeErrKind Nat :=
  if MAX_RECURSION_DEPTH < depth + 1 then .error .StackOverflow
  else .ok (depth + 1)

/-- Modelled from the spec: the destructor of `CheckedRecursiveDepth` —
the counter is decremented "on every exit path (normal return, raised
signal, or error)" (§4.5). -/
def checkedDepthExit (depth : Nat) : Nat := depth - 1

/-- Modelled from the spec: a language-level call wrapped in the scoped
depth guard.  When the guard refuses, the body never runs; otherwise the
body runs at the incremented depth and the destructor decrements whatever
depth the body left behind, on success and on error alike. -/
def guardedCall (depth : Nat)
    (body : Nat → Except RuntimeErrKind Value × Nat) :
    Except RuntimeErrKind Value × Nat :=
  match checkedDepthEnter depth with
  | .error e => (.error e, depth)
  | .ok d1 =>
    match body d1 with
    | (r, d2) => (r, checkedDepthExit d2)

/-- Statistics of running a function that unconditionally calls itself,
starting from a given depth: the error that stops it, how many nested
calls were admitted past the guard, and the depth counter after all the
scoped guards have been released. -/
structure SelfCallStats where
  outcome : RuntimeErrKind
  callsEntered : Nat
  depthAfter : Nat
deriving DecidableEq, Repr

/-- Modelled from the spec: an unconditionally self-calling function run
under the depth guard.  Each admitted call increments the depth, recurses,
and decrements on the way out; the first refused call raises
`StackOverflow` without doing any work. -/
def selfCall (depth : Nat) : SelfCallStats :=
  if MAX_RECURSION_DEPTH < depth + 1 then
    { outcome := .StackOverflow, callsEntered := 0, depthAfter := depth }
  else
    let r := selfCall (depth + 1)
    { outcome := r.outcome, callsEntered := r.callsEntered + 1,
      depthAfter := r.depthAfter - 1 }
termination_by MAX_RECURSION_DEPTH + 1 - depth
decreasing_by
  simp only [MAX_RECURSION_DEPTH] at *
  omega

/-- Repeatedly declaring (and defining) the same name, as a sequence of
`declare`/`define` pairs stops at the first thrown error. -/
def declareTimes (st : RState) (t : String) : Nat → RState × Option CompiletimeError
  | 0 => (st, none)
  | n + 1 =>
    match declare st t with
    | (st', some e) => (st', some e)
    | (st', none) => declareTimes (define st' t) t n

mutual

def eraseExpr : Expr → Expr
  | .Literal => .Literal
  | .Variable n _ => .Variable n none
  | .Assign n v _ => .Assign n (eraseExpr v) none
  | .Lambda ps b => .Lambda ps (eraseStmts b)
  | .Binary l r => .Binary (eraseExpr l) (eraseExpr r)
  | .Call c args => .Call (eraseExpr c) (eraseExprs args)
  | .Grouping g => .Grouping (eraseExpr g)
  | .Logical l r => .Logical (eraseExpr l) (eraseExpr r)
  | .Unary x => .Unary (eraseExpr x)
  | .Ternary a b c => .Ternary (eraseExpr a) (eraseExpr b) (eraseExpr c)
  | .Get o => .Get (eraseExpr o)
  | .Set o v => .Set (eraseExpr o) (eraseExpr v)
  | .This n _ => .This n none
  | .Empty => .Empty
  | .Malformed => .Malformed

def eraseExprs : List Expr → List Expr
  | [] => []
  | e :: es => eraseExpr e :: eraseExprs es

def eraseStmt : Stmt → Stmt
  | .ExprStmt e => .ExprStmt (eraseExpr e)
  | .PrintStmt e => .PrintStmt (eraseExpr e)
  | .VarStmt n i => .VarStmt n (eraseExpr i)
  | .BlockStmt b => .BlockStmt (eraseStmts b)
  | .IfStmt c t e => .IfStmt (eraseExpr c) (eraseStmt t) (eraseStmt e)
  | .WhileStmt c b => .WhileStmt (eraseExpr c) (eraseStmt b)
  | .FunctionDecl (.mk n ps b k) => .FunctionDecl (.mk n ps (eraseStmts b) k)
  | .ReturnStmt kw v => .ReturnStmt kw (eraseExpr v)
  | .ClassStmt n ms => .ClassStmt n (eraseMethods ms)
  | .EmptyStmt => .EmptyStmt
  | .MalformedStmt => .MalformedStmt

def eraseStmts : List Stmt → List Stmt
  | [] => []
  | s :: ss => eraseStmt s :: eraseStmts ss

def eraseMethods : List FunctionStmt → List FunctionStmt
  | [] => []
  | (.mk n ps b k) :: ms =>
    (.mk n ps (eraseStmts b) (if n == "init" then .CONSTRUCTOR else k)) :: eraseMethods ms

end

/-!
The remainder of the file is theorems: per-constructor unfolding equations
for the resolver's mutual functions, helper lemmas, and the claim theorems
with their witnesses and counterexamples.
-/

theorem resolveExpr_Literal (st : RState) :
    resolveExpr st .Literal = (.Literal, st, none) := by
  rw [resolveExpr.eq_def]

theorem resolveExpr_Variable (st : RState) (n : String) (d : Option Nat) :
    resolveExpr st (.Variable n d)
      = if selfInitCheck st n then (.Variable n d, st, some ⟨n, .selfInitializer⟩)
        else (.Variable n (updateDepth st.scopes n d), st, none) := by
  rw [resolveExpr.eq_def]

theorem resolveExpr_Assign (st : RState) (n : String) (v : Expr) (d : Option Nat) :
    resolveExpr st (.Assign n v d)
      = match resolveExpr st v with
        | (v', st', some e) => (.Assign n v' d, st', some e)
        | (v', st', none) => (.Assign n v' (updateDepth st'.scopes n d), st', none) := by
  rw [resolveExpr.eq_def]

theorem resolveExpr_Lambda (st : RState) (ps : List String) (b : List Stmt) :
    resolveExpr st (.Lambda ps b)
      = match resolveFunctionBody st ps b .LAMDBDA with
        | (b', st', r) => (.Lambda ps b', st', r) := by
  rw [resolveExpr.eq_def]

theorem resolveExpr_Binary (st : RState) (l r : Expr) :
    resolveExpr st (.Binary l r)
      = match resolveExpr st l with
        | (l', st', some e) => (.Binary l' r, st', some e)
        | (l', st', none) =>
          match resolveExpr st' r with
          | (r', st'', r2) => (.Binary l' r', st'', r2) := by
  rw [resolveExpr.eq_def]

theorem resolveExpr_Call (st : RState) (c : Expr) (args : List Expr) :
    resolveExpr st (.Call c args)
      = match resolveExpr st c with
        | (c', st', some e) => (.Call c' args, st', some e)
        | (c', st', none) =>
          match resolveArgs st' args with
          | (args', st'', r2) => (.Call c' args', st'', r2) := by
  rw [resolveExpr.eq_def]

theorem resolveExpr_Grouping (st : RState) (g : Expr) :
    resolveExpr st (.Grouping g)
      = match resolveExpr st g with
        | (g', st', r) => (.Grouping g', st', r) := by
  rw [resolveExpr.eq_def]

theorem resolveExpr_Logical (st : RState) (l r : Expr) :
    resolveExpr st (.Logical l r)
      = match resolveExpr st l with
        | (l', st', some e) => (.Logical l' r, st', some e)
        | (l', st', none) =>
          match resolveExpr st' r with
          | (r', st'', r2) => (.Logical l' r', st'', r2) := by
  rw [resolveExpr.eq_def]

theorem resolveExpr_Unary (st : RState) (x : Expr) :
    resolveExpr st (.Unary x)
      = match resolveExpr st x with
        | (x', st', r) => (.Unary x', st', r) := by
  rw [resolveExpr.eq_def]

theorem resolveExpr_Ternary (st : RState) (a b c : Expr) :
    resolveExpr st (.Ternary a b c)
      = match resolveExpr st a with
        | (a', st', some e) => (.Ternary a' b c, st', some e)
        | (a', st', none) =>
          match resolveExpr st' b with
          | (b', st2, some e) => (.Ternary a' b' c, st2, some e)
          | (b', st2, none) =>
            match resolveExpr st2 c with
            | (c', st3, r) => (.Ternary a' b' c', st3, r) := by
  rw [resolveExpr.eq_def]

theorem resolveExpr_Get (st : RState) (o : Expr) :
    resolveExpr st (.Get o)
      = match resolveExpr st o with
        | (o', st', r) => (.Get o', st', r) := by
  rw [resolveExpr.eq_def]

theorem resolveExpr_Set (st : RState) (o v : Expr) :
    resolveExpr st (.Set o v)
      = match resolveExpr st o with
        | (o', st', some e) => (.Set o' v, st', some e)
        | (o', st', none) =>
          match resolveExpr st' v with
          | (v', st'', r2) => (.Set o' v', st'', r2) := by
  rw [resolveExpr.eq_def]

theorem resolveExpr_This (st : RState) (n : String) (d : Option Nat) :
    resolveExpr st (.This n d)
      = if st.classKind = .NONE then (.This n d, st, some ⟨n, .thisOutsideClass⟩)
        else if st.functionKind = some .UNBOUND then
          (.This n d, st, some ⟨n, .thisInUnbound⟩)
        else (.This n (updateDepth st.scopes n d), st, none) := by
  rw [resolveExpr.eq_def]

theorem resolveExpr_Empty (st : RState) :
    resolveExpr st .Empty = (.Empty, st, none) := by
  rw [resolveExpr.eq_def]

theorem resolveExpr_Malformed (st : RState) :
    resolveExpr st .Malformed = (.Malformed, st, none) := by
  rw [resolveExpr.eq_def]

theorem resolveArgs_nil (st : RState) : resolveArgs st [] = ([], st, none) := by
  rw [resolveArgs.eq_def]

theorem resolveArgs_cons (st : RState) (a : Expr) (as : List Expr) :
    resolveArgs st (a :: as)
      = match resolveExpr st a with
        | (a', st', some e) => (a' :: as, st', some e)
        | (a', st', none) =>
          match resolveArgs st' as with
          | (as', st'', r) => (a' :: as', st'', r) := by
  rw [resolveArgs.eq_def]

theorem resolveStmtV_ExprStmt (st : RState) (e : Expr) :
    resolveStmtV st (.ExprStmt e)
      = match resolveExpr st e with
        | (e', st', r) => (.ExprStmt e', st', r) := by
  rw [resolveStmtV.eq_def]

theorem resolveStmtV_PrintStmt (st : RState) (e : Expr) :
    resolveStmtV st (.PrintStmt e)
      = match resolveExpr st e with
        | (e', st', r) => (.PrintStmt e', st', r) := by
  rw [resolveStmtV.eq_def]

theorem resolveStmtV_VarStmt (st : RState) (n : String) (i : Expr) :
    resolveStmtV st (.VarStmt n i)
      = match declare st n with
        | (st', some e) => (.VarStmt n i, st', some e)
        | (st', none) =>
          match resolveExpr st' i with
          | (i', st'', some e) => (.VarStmt n i', st'', some e)
          | (i', st'', none) => (.VarStmt n i', define st'' n, none) := by
  rw [resolveStmtV.eq_def]

theorem resolveStmtV_BlockStmt (st : RState) (body : List Stmt) :
    resolveStmtV st (.BlockStmt body)
      = match resolveStmts (pushScope st) body with
        | (body', st') => (.BlockStmt body', popScope st', none) := by
  rw [resolveStmtV.eq_def]

theorem resolveStmtV_IfStmt (st : RState) (c : Expr) (t e : Stmt) :
    resolveStmtV st (.IfStmt c t e)
      = match resolveExpr st c with
        | (c', st', some er) => (.IfStmt c' t e, st', some er)
        | (c', st', none) =>
          match resolveStmtTop st' t with
          | (t', st2) =>
            match resolveStmtTop st2 e with
            | (e', st3) => (.IfStmt c' t' e', st3, none) := by
  rw [resolveStmtV.eq_def]

theorem resolveStmtV_WhileStmt (st : RState) (c : Expr) (b : Stmt) :
    resolveStmtV st (.WhileStmt c b)
      = match resolveExpr st c with
        | (c', st', some er) => (.WhileStmt c' b, st', some er)
        | (c', st', none) =>
          match resolveStmtTop st' b with
          | (b', st2) => (.WhileStmt c' b', st2, none) := by
  rw [resolveStmtV.eq_def]

theorem resolveStmtV_FunctionDecl (st : RState) (n : String) (ps : List String)
    (b : List Stmt) (k : FunctionKind) :
    resolveStmtV st (.FunctionDecl (.mk n ps b k))
      = match declare st n with
        | (st', some e) => (.FunctionDecl (.mk n ps b k), st', some e)
        | (st', none) =>
          match resolveFunctionBody (define st' n) ps b k with
          | (b', st3, r) => (.FunctionDecl (.mk n ps b' k), st3, r) := by
  rw [resolveStmtV.eq_def]

theorem resolveStmtV_ReturnStmt (st : RState) (kw : String) (v : Expr) :
    resolveStmtV st (.ReturnStmt kw v)
      = if st.functionKind = none then
          (.ReturnStmt kw v, st, some ⟨kw, .returnTopLevel⟩)
        else if st.functionKind = some .CONSTRUCTOR ∧ isEmptyE v = false then
          (.ReturnStmt kw v, st, some ⟨kw, .returnValueFromInit⟩)
        else
          match resolveExpr st v with
          | (v', st', r) => (.ReturnStmt kw v', st', r) := by
  rw [resolveStmtV.eq_def]

theorem resolveStmtV_ClassStmt (st : RState) (n : String) (ms : List FunctionStmt) :
    resolveStmtV st (.ClassStmt n ms)
      = match declare { st with classKind := .CLASS } n with
        | (st2, some e) => (.ClassStmt n ms, st2, some e)
        | (st2, none) =>
          match resolveMethods
              { define st2 n with scopes := (define st2 n).scopes ++ [[("this", true)]] } ms with
          | (ms', st5, some e) => (.ClassStmt n ms', st5, some e)
          | (ms', st5, none) =>
            (.ClassStmt n ms', { popScope st5 with classKind := st.classKind }, none) := by
  rw [resolveStmtV.eq_def]

theorem resolveStmtV_EmptyStmt (st : RState) :
    resolveStmtV st .EmptyStmt = (.EmptyStmt, st, none) := by
  rw [resolveStmtV.eq_def]

theorem resolveStmtV_MalformedStmt (st : RState) :
    resolveStmtV st .MalformedStmt = (.MalformedStmt, st, none) := by
  rw [resolveStmtV.eq_def]

theorem resolveStmtTop_eq (st : RState) (s : Stmt) :
    resolveStmtTop st s
      = match resolveStmtV st s with
        | (s', st', none) => (s', st')
        | (s', st', some e) => (s', { st' with errors := st'.errors ++ [e] }) := by
  rw [resolveStmtTop.eq_def]

theorem resolveStmts_nil (st : RState) : resolveStmts st [] = ([], st) := by
  rw [resolveStmts.eq_def]

theorem resolveStmts_cons (st : RState) (s : Stmt) (ss : List Stmt) :
    resolveStmts st (s :: ss)
      = match resolveStmtTop st s with
        | (s', st') =>
          match resolveStmts st' ss with
          | (ss', st'') => (s' :: ss', st'') := by
  rw [resolveStmts.eq_def]

theorem resolveFunctionBody_eq (st : RState) (params : List String) (body : List Stmt)
    (type : FunctionKind) :
    resolveFunctionBody st params body type
      = match declareParams (pushScope { st with functionKind := some type }) params with
        | (st2, some e) => (body, st2, some e)
        | (st2, none) =>
          match resolveStmts (pushScope st2) body with
          | (body', st4) =>
            (body', { popScope (popScope st4) with functionKind := st.functionKind }, none) := by
  rw [resolveFunctionBody.eq_def]

theorem resolveMethods_nil (st : RState) : resolveMethods st [] = ([], st, none) := by
  rw [resolveMethods.eq_def]

theorem resolveMethods_cons (st : RState) (n : String) (ps : List String)
    (b : List Stmt) (k : FunctionKind) (ms : List FunctionStmt) :
    resolveMethods st (.mk n ps b k :: ms)
      = match resolveFunctionBody st ps b (if n == "init" then .CONSTRUCTOR else k) with
        | (b', st', some e) =>
          ((.mk n ps b' (if n == "init" then .CONSTRUCTOR else k)) :: ms, st', some e)
        | (b', st', none) =>
          match resolveMethods st' ms with
          | (ms', st'', r) =>
            ((.mk n ps b' (if n == "init" then .CONSTRUCTOR else k)) :: ms', st'', r) := by
  rw [resolveMethods.eq_def]

/-- Closed form of `selfCall`: starting `k` below the ceiling, exactly `k`
nested calls are admitted, the run ends in `StackOverflow`, and the depth
counter is restored to its starting value. -/
theorem selfCall_spec (k d : Nat) (h : d + k = MAX_RECURSION_DEPTH) :
    selfCall d = ⟨.StackOverflow, k, d⟩ := by
  induction k generalizing d with
  | zero =>
    rw [selfCall]
    have hlt : MAX_RECURSION_DEPTH < d + 1 := by omega
    simp [hlt]
  | succ k ih =>
    rw [selfCall]
    have hlt : ¬ MAX_RECURSION_DEPTH < d + 1 := by
      simp only [MAX_RECURSION_DEPTH] at *
      omega
    rw [if_neg hlt, ih (d + 1) (by omega)]
    rfl

/-- C1: the environment `Function::call` creates for a call has as its
enclosing frame the interpreter's current environment — the environment
active at the *call site* — for every function and every interpreter
state; and a `Function` value consists of its declaration node alone, so
no definition-site environment is captured or can influence the call.
This refutes the claim that the call frame's enclosing frame is the
function's captured definition-time closure and "never the environment
active at the call site". -/
theorem function_call_frame_encloses_call_site_env :
    (∀ (f : Interp.Function) (interp : InterpreterState),
      (f.callInitialEnv interp).enclosingEnv = some interp.environment)
    ∧ (∀ f : Interp.Function, f = Interp.Function.mk f.declaration) := by
  constructor
  · intro f interp; rfl
  · intro f; rfl

/-- C2: resolving the single statement `fun f(a, a) {}` — a function whose
parameter list declares the same name twice — leaves the resolver's scope
stack non-empty after the whole program has been resolved: the duplicate
`declare` throws inside `resolve_function` after the parameter scope was
pushed, and the unwinding skips both `pop_back` calls.  This refutes the
claim that the scope stack is empty after resolving a complete program
even on error paths. -/
theorem resolver_scopes_leak_on_duplicate_parameter :
    (resolveProgram [.FunctionDecl (.mk "f" ["a", "a"] [] .FUNCTION)]).2.scopes
        = [[("a", true)]]
    ∧ (resolveProgram [.FunctionDecl (.mk "f" ["a", "a"] [] .FUNCTION)]).2.scopes ≠ []
    ∧ (resolveProgram [.FunctionDecl (.mk "f" ["a", "a"] [] .FUNCTION)]).2.errors
        = [⟨"a", .duplicateDeclaration⟩] := by
  refine ⟨?_, ?_, ?_⟩ <;>
    simp [resolveProgram, resolveStmts, resolveStmtTop, resolveStmtV,
      resolveFunctionBody, declareParams, declare, define, pushScope, popScope,
      initialRState, backScope, scopeContains, scopeAssign, modifyBack]

/-- C3: a call at the recursion ceiling is refused with `StackOverflow`
before its body does any work; an admitted call runs its body at the
incremented depth and the guard's release decrements the depth on every
exit path, successful or erroneous; and an unconditionally self-calling
function started at depth 0 is stopped by `StackOverflow` after exactly
1000 admitted nested calls, with the depth counter restored to 0. -/
theorem recursion_guard_ceiling_and_symmetric_release :
    (∀ (d : Nat) (body : Nat → Except RuntimeErrKind Value × Nat),
      MAX_RECURSION_DEPTH < d + 1 →
      guardedCall d body = (.error .StackOverflow, d))
    ∧ (∀ (d : Nat) (body : Nat → Except RuntimeErrKind Value × Nat)
        (r : Except RuntimeErrKind Value) (d2 : Nat),
        ¬ MAX_RECURSION_DEPTH < d + 1 → body (d + 1) = (r, d2) →
        guardedCall d body = (r, d2 - 1))
    ∧ selfCall 0 = ⟨.StackOverflow, MAX_RECURSION_DEPTH, 0⟩ := by
  refine ⟨?_, ?_, ?_⟩
  · intro d body h
    simp [guardedCall, checkedDepthEnter, h]
  · intro d body r d2 h hb
    simp [guardedCall, checkedDepthEnter, h, hb, checkedDepthExit]
  · exact selfCall_spec MAX_RECURSION_DEPTH 0 (by simp)

/-- Witness for C3: the guard refuses a call arriving at depth 1000, and
releases symmetrically around an erroring body at depth 7. -/
theorem recursion_guard_ceiling_witness :
    guardedCall 1000 (fun d => (.ok .NullType, d)) = (.error .StackOverflow, 1000)
    ∧ guardedCall 7 (fun d => (.error .UndefinedVariable, d)) = (.error .UndefinedVariable, 7) := by
  constructor
  · exact recursion_guard_ceiling_and_symmetric_release.1 1000 _ (by decide)
  · exact recursion_guard_ceiling_and_symmetric_release.2.1 7 _
      (.error .UndefinedVariable) 8 (by decide) rfl

/-- C4: a call whose body raises the `Return` signal yields exactly the
signal's value; a call whose body completes normally yields `NullType`;
and the result of a call is never an escaping `Return` signal — the
signal is consumed at the call boundary. -/
theorem function_call_catches_return_signal (f : Interp.Function)
    (r : Except ThrownSignal Unit) :
    (∀ v, r = .error (.ReturnSignal v) → f.callOutcome r = .ok v)
    ∧ (r = .ok () → f.callOutcome r = .ok .NullType)
    ∧ (∀ v, f.callOutcome r ≠ .error (.ReturnSignal v)) := by
  refine ⟨?_, ?_, ?_⟩
  · intro v h; subst h; rfl
  · intro h; subst h; rfl
  · intro v
    cases r with
    | ok u => simp [Interp.Function.callOutcome]
    | error s => cases s <;> simp [Interp.Function.callOutcome]

/-- Witness for C4 at a concrete function and concrete body outcomes. -/
theorem function_call_catches_return_signal_witness :
    (Interp.Function.mk (.mk "g" [] [] .FUNCTION)).callOutcome
      (.error (.ReturnSignal (.Number 1))) = .ok (.Number 1)
    ∧ (Interp.Function.mk (.mk "g" [] [] .FUNCTION)).callOutcome (.ok ()) = .ok .NullType :=
  ⟨(function_call_catches_return_signal (Interp.Function.mk (.mk "g" [] [] .FUNCTION)) _).1
      (.Number 1) rfl,
   (function_call_catches_return_signal (Interp.Function.mk (.mk "g" [] [] .FUNCTION)) _).2.1 rfl⟩

/-- The binding loop succeeds — performs no out-of-bounds argument read —
exactly when it can pair every parameter with the argument at the same
position, in which case it performs the `define` calls in order on those
pairs. -/
theorem bindParamsLoop_eq (ps : List String) (args : List Value) (env : Environment)
    (h : args.length = ps.length) :
    bindParamsLoop env ps args
      = some (List.foldl (fun e pa => e.define pa.1 pa.2) env (ps.zip args)) := by
  induction ps generalizing args env with
  | nil => cases args <;> simp_all [bindParamsLoop]
  | cons p ps ih =>
    cases args with
    | nil => simp at h
    | cons a as =>
      simp only [bindParamsLoop, List.zip_cons_cons, List.foldl_cons]
      exact ih as (env.define p a) (by simpa using h)

/-- C9: when the supplied argument count equals the function's arity
(`parameters.size()`), the parameter-binding loop of `Function::call`
performs only in-bounds reads of the arguments vector (the fallible access
never yields `none`) and binds each parameter name to the argument at the
same position, in declaration order. -/
theorem param_binding_in_bounds_and_positional (f : Interp.Function)
    (env : Environment) (args : List Value) (h : args.length = f.arity) :
    bindParamsLoop env f.declaration.params args
      = some (List.foldl (fun e pa => e.define pa.1 pa.2) env
          (f.declaration.params.zip args)) :=
  bindParamsLoop_eq f.declaration.params args env h

/-- Witness for C9: a two-parameter function applied to two arguments. -/
theorem param_binding_in_bounds_witness :
    bindParamsLoop (.mk [] none)
        (Interp.Function.mk (.mk "g" ["x", "y"] [] .FUNCTION)).declaration.params
        [.Number 1, .Number 2]
      = some (List.foldl (fun e pa => e.define pa.1 pa.2) (.mk [] none)
          ((Interp.Function.mk (.mk "g" ["x", "y"] [] .FUNCTION)).declaration.params.zip
            [.Number 1, .Number 2])) :=
  param_binding_in_bounds_and_positional
    (Interp.Function.mk (.mk "g" ["x", "y"] [] .FUNCTION)) (.mk [] none)
    [.Number 1, .Number 2] rfl


/-- C10: with an empty scope stack (global scope), `declare` and `define`
are no-ops — they change nothing and raise nothing — and declaring the
same name any number of times never raises the duplicate-declaration
error and records no entry anywhere. -/
theorem global_scope_declare_define_noop (st : RState) (t : String)
    (h : st.scopes = []) :
    declare st t = (st, none) ∧ define st t = st
    ∧ ∀ n, declareTimes st t n = (st, none) := by
  have he : st.scopes.isEmpty = true := by simp [h]
  have hd : declare st t = (st, none) := by simp [declare, he]
  have hf : define st t = st := by simp [define, he]
  refine ⟨hd, hf, ?_⟩
  intro n
  induction n with
  | zero => rfl
  | succ n ih => simp [declareTimes, hd, hf, ih]

/-- Witness for C10 at the fresh resolver state. -/
theorem global_scope_declare_define_noop_witness :
    declare initialRState "x" = (initialRState, none)
    ∧ declareTimes initialRState "x" 3 = (initialRState, none) :=
  ⟨(global_scope_declare_define_noop initialRState "x" rfl).1,
   (global_scope_declare_define_noop initialRState "x" rfl).2.2 3⟩

/-- If no index below `f` holds the name, the downward scan finds
nothing. -/
theorem scanGo_none (scopes : List Scope) (t : String) (f : Nat)
    (h : ∀ j, j < f → scopeContains (scopes.getD j []) t = false) :
    scanGo scopes t f = none := by
  induction f with
  | zero => rfl
  | succ f ih =>
    rw [scanGo, h f (by omega)]
    simp only [Bool.false_eq_true, if_false]
    exact ih (fun j hj => h j (by omega))

/-- The downward scan stops at the largest index holding the name and
reports `scopes.size() - 1 - i`. -/
theorem scanGo_hit (scopes : List Scope) (t : String) (i f : Nat)
    (hif : i < f)
    (hc : scopeContains (scopes.getD i []) t = true)
    (habove : ∀ j, i < j → j < f → scopeContains (scopes.getD j []) t = false) :
    scanGo scopes t f = some (scopes.length - 1 - i) := by
  induction f with
  | zero => omega
  | succ f ih =>
    by_cases hfi : f = i
    · subst hfi
      rw [scanGo, hc]
      simp
    · have hlt : i < f := by omega
      rw [scanGo, habove f (by omega) (by omega)]
      simp only [Bool.false_eq_true, if_false]
      exact ih hlt (fun j hj hjf => habove j hj (by omega))

/-- C5: `resolve_local` scans the scope stack from innermost to outermost;
at the first scope containing the name — vector index `i` with no hit at
any larger index — it sets the node's depth to
`(current scope count - 1 - i)`; when no scope contains the name the scan
yields nothing and the depth slot stays unset. -/
theorem resolve_local_scan_spec (scopes : List Scope) (t : String) :
    (∀ i, i < scopes.length →
      scopeContains (scopes.getD i []) t = true →
      (∀ j, i < j → j < scopes.length → scopeContains (scopes.getD j []) t = false) →
      resolveLocalDepth scopes t = some (scopes.length - 1 - i)
      ∧ updateDepth scopes t none = some (scopes.length - 1 - i))
    ∧ ((∀ j, j < scopes.length → scopeContains (scopes.getD j []) t = false) →
      resolveLocalDepth scopes t = none ∧ updateDepth scopes t none = none) := by
  constructor
  · intro i hi hc habove
    have h1 : resolveLocalDepth scopes t = some (scopes.length - 1 - i) :=
      scanGo_hit scopes t i scopes.length hi hc habove
    exact ⟨h1, by simp [updateDepth, h1]⟩
  · intro h
    have h1 : resolveLocalDepth scopes t = none :=
      scanGo_none scopes t scopes.length h
    exact ⟨h1, by simp [updateDepth, h1]⟩

/-- Witness for C5: a three-scope stack where `x` sits innermost at index
2 (depth 0, shadowing index 0), and a name `z` found nowhere. -/
theorem resolve_local_scan_witness :
    resolveLocalDepth [[("x", true)], [("y", true)], [("x", true)]] "x" = some 0
    ∧ resolveLocalDepth [[("x", true)], [("y", true)], [("x", true)]] "z" = none := by
  constructor
  · exact ((resolve_local_scan_spec [[("x", true)], [("y", true)], [("x", true)]] "x").1
      2 (by decide) (by decide) (by intro j hj hjl; exfalso; simp at hjl; omega)).1
  · exact ((resolve_local_scan_spec [[("x", true)], [("y", true)], [("x", true)]] "z").2
      (by intro j hj; simp at hj; interval_cases j <;> decide)).1

/-- Rewriting the back element keeps the stack non-empty. -/
theorem modifyBack_ne_nil (f : Scope → Scope) (l : List Scope) (h : l ≠ []) :
    modifyBack f l ≠ [] := by
  cases l with
  | nil => simp at h
  | cons s rest => cases rest <;> simp [modifyBack]

/-- Rewriting the back element commutes with reading it. -/
theorem modifyBack_backScope (f : Scope → Scope) (l : List Scope) (h : l ≠ []) :
    backScope (modifyBack f l) = f (backScope l) := by
  induction l with
  | nil => simp at h
  | cons s rest ih =>
    cases rest with
    | nil => simp [modifyBack, backScope]
    | cons s2 rest2 =>
      have h2 := ih (by simp)
      rw [show modifyBack f (s :: s2 :: rest2) = s :: modifyBack f (s2 :: rest2) from rfl]
      match hm : modifyBack f (s2 :: rest2) with
      | [] => exact absurd hm (modifyBack_ne_nil f (s2 :: rest2) (by simp))
      | y :: ys =>
        rw [show backScope (s :: y :: ys) = backScope (y :: ys) from rfl, ← hm, h2]
        rfl

/-- C6: resolving `var n = n;` with a non-empty scope stack whose innermost
scope does not already hold `n` reports exactly the
cannot-read-local-variable-in-its-own-initializer diagnostic: `declare`
marks the name declared-but-undefined and the initializer's read then
trips the check in `visit(Variable&)`.  The same statement resolved at
global scope (empty scope stack) changes nothing and reports no error. -/
theorem self_reference_initializer_spec (st : RState) (n : String) :
    (st.scopes ≠ [] → scopeContains (backScope st.scopes) n = false →
      resolveStmtTop st (.VarStmt n (.Variable n none))
        = (.VarStmt n (.Variable n none),
           { st with scopes := modifyBack (fun s => (n, false) :: s) st.scopes,
                     errors := st.errors ++ [⟨n, .selfInitializer⟩] }))
    ∧ (st.scopes = [] →
      resolveStmtTop st (.VarStmt n (.Variable n none))
        = (.VarStmt n (.Variable n none), st)) := by
  constructor
  · intro hne hnc
    have hie : st.scopes.isEmpty = false := by
      cases h : st.scopes with
      | nil => exact absurd h hne
      | cons a b => simp
    have hdecl : declare st n
        = ({ st with scopes := modifyBack (fun s => (n, false) :: s) st.scopes }, none) := by
      simp [declare, hie, hnc]
    have hback : backScope (modifyBack (fun s => (n, false) :: s) st.scopes)
        = (n, false) :: backScope st.scopes :=
      modifyBack_backScope _ _ hne
    have hie2 : (modifyBack (fun s => (n, false) :: s) st.scopes).isEmpty = false := by
      have hx := modifyBack_ne_nil (fun s => (n, false) :: s) st.scopes hne
      cases h : modifyBack (fun s => (n, false) :: s) st.scopes with
      | nil => exact absurd h hx
      | cons a b => simp
    have hchk : selfInitCheck { st with scopes := modifyBack (fun s => (n, false) :: s) st.scopes } n = true := by
      simp [selfInitCheck, hie2, hback, scopeContains, scopeAt]
    rw [resolveStmtTop, resolveStmtV, hdecl]
    simp [resolveExpr.eq_def, hchk]
  · intro hnil
    have hie : st.scopes.isEmpty = true := by simp [hnil]
    have hdecl : declare st n = (st, none) := by simp [declare, hie]
    have hchk : selfInitCheck st n = false := by simp [selfInitCheck, hie]
    have hupd : updateDepth st.scopes n none = none := by
      simp [updateDepth, resolveLocalDepth, hnil, scanGo]
    rw [resolveStmtTop, resolveStmtV, hdecl]
    simp [resolveExpr.eq_def, hchk, hupd, define, hie]

/-- Witness for C6: `var a = a;` inside a block scope raises the
diagnostic; the same statement at global scope leaves the state
untouched. -/
theorem self_reference_initializer_witness :
    resolveStmtTop ⟨[[("b", true)]], none, .NONE, []⟩ (.VarStmt "a" (.Variable "a" none))
      = (.VarStmt "a" (.Variable "a" none),
         ⟨[[("a", false), ("b", true)]], none, .NONE, [⟨"a", .selfInitializer⟩]⟩)
    ∧ resolveStmtTop initialRState (.VarStmt "a" (.Variable "a" none))
      = (.VarStmt "a" (.Variable "a" none), initialRState) := by
  constructor
  · have h := (self_reference_initializer_spec ⟨[[("b", true)]], none, .NONE, []⟩ "a").1
      (by decide) (by decide)
    rw [h]
    simp [modifyBack]
  · exact (self_reference_initializer_spec initialRState "a").2 rfl

theorem updateDepth_idem (scopes : List Scope) (t : String) (d : Option Nat) :
    updateDepth scopes t (updateDepth scopes t d) = updateDepth scopes t d := by
  simp only [updateDepth]
  cases h : resolveLocalDepth scopes t <;> simp

theorem isEmptyE_true_iff (v : Expr) : isEmptyE v = true ↔ v = .Empty := by
  cases v <;> simp [isEmptyE]

mutual

theorem eraseResolveExpr (st : RState) : (e : Expr) →
    eraseExpr (resolveExpr st e).1 = eraseExpr e
  | .Literal => by simp [resolveExpr_Literal]
  | .Variable n d => by
    rw [resolveExpr_Variable]
    split <;> simp [eraseExpr]
  | .Assign n v d => by
    have hv := eraseResolveExpr st v
    rcases h1 : resolveExpr st v with ⟨v', st1, e1⟩
    rw [h1] at hv
    simp only at hv
    cases e1 <;> (simp only [resolveExpr_Assign, h1]; simp [eraseExpr, hv])
  | .Lambda ps b => by
    have hb := eraseResolveFunctionBody st ps b .LAMDBDA
    rcases h1 : resolveFunctionBody st ps b .LAMDBDA with ⟨b', st1, r1⟩
    rw [h1] at hb
    simp only at hb
    simp only [resolveExpr_Lambda, h1]
    simp [eraseExpr, hb]
  | .Binary l r => by
    have hl := eraseResolveExpr st l
    rcases h1 : resolveExpr st l with ⟨l', st1, e1⟩
    rw [h1] at hl
    simp only at hl
    cases e1 with
    | some err =>
      simp only [resolveExpr_Binary, h1]
      simp [eraseExpr, hl]
    | none =>
      have hr := eraseResolveExpr st1 r
      rcases h2 : resolveExpr st1 r with ⟨r', st2, e2⟩
      rw [h2] at hr
      simp only at hr
      simp only [resolveExpr_Binary, h1, h2]
      simp [eraseExpr, hl, hr]
  | .Call c args => by
    have hc := eraseResolveExpr st c
    rcases h1 : resolveExpr st c with ⟨c', st1, e1⟩
    rw [h1] at hc
    simp only at hc
    cases e1 with
    | some err =>
      simp only [resolveExpr_Call, h1]
      simp [eraseExpr, hc]
    | none =>
      have ha := eraseResolveArgs st1 args
      rcases h2 : resolveArgs st1 args with ⟨args', st2, e2⟩
      rw [h2] at ha
      simp only at ha
      simp only [resolveExpr_Call, h1, h2]
      simp [eraseExpr, hc, ha]
  | .Grouping g => by
    have hg := eraseResolveExpr st g
    rcases h1 : resolveExpr st g with ⟨g', st1, e1⟩
    rw [h1] at hg
    simp only at hg
    simp only [resolveExpr_Grouping, h1]
    simp [eraseExpr, hg]
  | .Logical l r => by
    have hl := eraseResolveExpr st l
    rcases h1 : resolveExpr st l with ⟨l', st1, e1⟩
    rw [h1] at hl
    simp only at hl
    cases e1 with
    | some err =>
      simp only [resolveExpr_Logical, h1]
      simp [eraseExpr, hl]
    | none =>
      have hr := eraseResolveExpr st1 r
      rcases h2 : resolveExpr st1 r with ⟨r', st2, e2⟩
      rw [h2] at hr
      simp only at hr
      simp only [resolveExpr_Logical, h1, h2]
      simp [eraseExpr, hl, hr]
  | .Unary x => by
    have hx := eraseResolveExpr st x
    rcases h1 : resolveExpr st x with ⟨x', st1, e1⟩
    rw [h1] at hx
    simp only at hx
    simp only [resolveExpr_Unary, h1]
    simp [eraseExpr, hx]
  | .Ternary a b c => by
    have ha := eraseResolveExpr st a
    rcases h1 : resolveExpr st a with ⟨a', st1, e1⟩
    rw [h1] at ha
    simp only at ha
    cases e1 with
    | some err =>
      simp only [resolveExpr_Ternary, h1]
      simp [eraseExpr, ha]
    | none =>
      have hb := eraseResolveExpr st1 b
      rcases h2 : resolveExpr st1 b with ⟨b', st2, e2⟩
      rw [h2] at hb
      simp only at hb
      cases e2 with
      | some err =>
        simp only [resolveExpr_Ternary, h1, h2]
        simp [eraseExpr, ha, hb]
      | none =>
        have hc := eraseResolveExpr st2 c
        rcases h3 : resolveExpr st2 c with ⟨c', st3, e3⟩
        rw [h3] at hc
        simp only at hc
        simp only [resolveExpr_Ternary, h1, h2, h3]
        simp [eraseExpr, ha, hb, hc]
  | .Get o => by
    have ho := eraseResolveExpr st o
    rcases h1 : resolveExpr st o with ⟨o', st1, e1⟩
    rw [h1] at ho
    simp only at ho
    simp only [resolveExpr_Get, h1]
    simp [eraseExpr, ho]
  | .Set o v => by
    have ho := eraseResolveExpr st o
    rcases h1 : resolveExpr st o with ⟨o', st1, e1⟩
    rw [h1] at ho
    simp only at ho
    cases e1 with
    | some err =>
      simp only [resolveExpr_Set, h1]
      simp [eraseExpr, ho]
    | none =>
      have hv := eraseResolveExpr st1 v
      rcases h2 : resolveExpr st1 v with ⟨v', st2, e2⟩
      rw [h2] at hv
      simp only at hv
      simp only [resolveExpr_Set, h1, h2]
      simp [eraseExpr, ho, hv]
  | .This n d => by
    rw [resolveExpr_This]
    split
    · simp [eraseExpr]
    · split <;> simp [eraseExpr]
  | .Empty => by simp [resolveExpr_Empty]
  | .Malformed => by simp [resolveExpr_Malformed]
termination_by e => (sizeOf e, 0)

theorem eraseResolveArgs (st : RState) : (l : List Expr) →
    eraseExprs (resolveArgs st l).1 = eraseExprs l
  | [] => by simp [resolveArgs_nil]
  | a :: as => by
    have ha := eraseResolveExpr st a
    rcases h1 : resolveExpr st a with ⟨a', st1, e1⟩
    rw [h1] at ha
    simp only at ha
    cases e1 with
    | some err =>
      simp only [resolveArgs_cons, h1]
      simp [eraseExprs, ha]
    | none =>
      have has := eraseResolveArgs st1 as
      rcases h2 : resolveArgs st1 as with ⟨as', st2, e2⟩
      rw [h2] at has
      simp only at has
      simp only [resolveArgs_cons, h1, h2]
      simp [eraseExprs, ha, has]
termination_by l => (sizeOf l, 0)

theorem eraseResolveStmtV (st : RState) : (s : Stmt) →
    eraseStmt (resolveStmtV st s).1 = eraseStmt s
  | .ExprStmt e => by
    have he := eraseResolveExpr st e
    rcases h1 : resolveExpr st e with ⟨e', st1, e1⟩
    rw [h1] at he
    simp only at he
    simp only [resolveStmtV_ExprStmt, h1]
    simp [eraseStmt, he]
  | .PrintStmt e => by
    have he := eraseResolveExpr st e
    rcases h1 : resolveExpr st e with ⟨e', st1, e1⟩
    rw [h1] at he
    simp only at he
    simp only [resolveStmtV_PrintStmt, h1]
    simp [eraseStmt, he]
  | .VarStmt n i => by
    rcases hd : declare st n with ⟨st1, ed⟩
    cases ed with
    | some err =>
      simp only [resolveStmtV_VarStmt, hd]
    | none =>
      have hi := eraseResolveExpr st1 i
      rcases h1 : resolveExpr st1 i with ⟨i', st2, e1⟩
      rw [h1] at hi
      simp only at hi
      cases e1 <;> (simp only [resolveStmtV_VarStmt, hd, h1]; simp [eraseStmt, hi])
  | .BlockStmt b => by
    have hb := eraseResolveStmts (pushScope st) b
    rcases h1 : resolveStmts (pushScope st) b with ⟨b', st1⟩
    rw [h1] at hb
    simp only at hb
    simp only [resolveStmtV_BlockStmt, h1]
    simp [eraseStmt, hb]
  | .IfStmt c t e => by
    have hc := eraseResolveExpr st c
    rcases h1 : resolveExpr st c with ⟨c', st1, e1⟩
    rw [h1] at hc
    simp only at hc
    cases e1 with
    | some err =>
      simp only [resolveStmtV_IfStmt, h1]
      simp [eraseStmt, hc]
    | none =>
      have ht := eraseResolveStmtTop st1 t
      rcases h2 : resolveStmtTop st1 t with ⟨t', st2⟩
      rw [h2] at ht
      simp only at ht
      have he := eraseResolveStmtTop st2 e
      rcases h3 : resolveStmtTop st2 e with ⟨e', st3⟩
      rw [h3] at he
      simp only at he
      simp only [resolveStmtV_IfStmt, h1, h2, h3]
      simp [eraseStmt, hc, ht, he]
  | .WhileStmt c b => by
    have hc := eraseResolveExpr st c
    rcases h1 : resolveExpr st c with ⟨c', st1, e1⟩
    rw [h1] at hc
    simp only at hc
    cases e1 with
    | some err =>
      simp only [resolveStmtV_WhileStmt, h1]
      simp [eraseStmt, hc]
    | none =>
      have hb := eraseResolveStmtTop st1 b
      rcases h2 : resolveStmtTop st1 b with ⟨b', st2⟩
      rw [h2] at hb
      simp only at hb
      simp only [resolveStmtV_WhileStmt, h1, h2]
      simp [eraseStmt, hc, hb]
  | .FunctionDecl (.mk n ps b k) => by
    rcases hd : declare st n with ⟨st1, ed⟩
    cases ed with
    | some err =>
      simp only [resolveStmtV_FunctionDecl, hd]
    | none =>
      have hb := eraseResolveFunctionBody (define st1 n) ps b k
      rcases h1 : resolveFunctionBody (define st1 n) ps b k with ⟨b', st2, r1⟩
      rw [h1] at hb
      simp only at hb
      simp only [resolveStmtV_FunctionDecl, hd, h1]
      simp [eraseStmt, hb]
  | .ReturnStmt kw v => by
    rw [resolveStmtV_ReturnStmt]
    split
    · simp
    · split
      · simp
      · have hv := eraseResolveExpr st v
        rcases h1 : resolveExpr st v with ⟨v', st1, e1⟩
        rw [h1] at hv
        simp only at hv
        simp only [h1]
        simp [eraseStmt, hv]
  | .ClassStmt n ms => by
    rcases hd : declare { st with classKind := .CLASS } n with ⟨st1, ed⟩
    cases ed with
    | some err =>
      simp only [resolveStmtV_ClassStmt, hd]
    | none =>
      have hm := eraseResolveMethods
        { define st1 n with scopes := (define st1 n).scopes ++ [[("this", true)]] } ms
      rcases h1 : resolveMethods
          { define st1 n with scopes := (define st1 n).scopes ++ [[("this", true)]] } ms
        with ⟨ms', st2, r1⟩
      rw [h1] at hm
      simp only at hm
      cases r1 <;> (simp only [resolveStmtV_ClassStmt, hd, h1]; simp [eraseStmt, hm])
  | .EmptyStmt => by simp [resolveStmtV_EmptyStmt]
  | .MalformedStmt => by simp [resolveStmtV_MalformedStmt]
termination_by s => (sizeOf s, 0)

theorem eraseResolveStmtTop (st : RState) (s : Stmt) :
    eraseStmt (resolveStmtTop st s).1 = eraseStmt s := by
  have hs := eraseResolveStmtV st s
  rcases h1 : resolveStmtV st s with ⟨s', st1, e1⟩
  rw [h1] at hs
  simp only at hs
  cases e1 <;> (simp only [resolveStmtTop_eq, h1]; simp [hs])
termination_by (sizeOf s, 1)

theorem eraseResolveStmts (st : RState) : (l : List Stmt) →
    eraseStmts (resolveStmts st l).1 = eraseStmts l
  | [] => by simp [resolveStmts_nil]
  | s :: ss => by
    have hs := eraseResolveStmtTop st s
    rcases h1 : resolveStmtTop st s with ⟨s', st1⟩
    rw [h1] at hs
    simp only at hs
    have hss := eraseResolveStmts st1 ss
    rcases h2 : resolveStmts st1 ss with ⟨ss', st2⟩
    rw [h2] at hss
    simp only at hss
    simp only [resolveStmts_cons, h1, h2]
    simp [eraseStmts, hs, hss]
termination_by l => (sizeOf l, 0)

theorem eraseResolveFunctionBody (st : RState) (ps : List String) (b : List Stmt)
    (k : FunctionKind) :
    eraseStmts (resolveFunctionBody st ps b k).1 = eraseStmts b := by
  rcases hd : declareParams (pushScope { st with functionKind := some k }) ps with ⟨st1, ed⟩
  cases ed with
  | some err =>
    simp only [resolveFunctionBody_eq, hd]
  | none =>
    have hb := eraseResolveStmts (pushScope st1) b
    rcases h1 : resolveStmts (pushScope st1) b with ⟨b', st2⟩
    rw [h1] at hb
    simp only at hb
    simp only [resolveFunctionBody_eq, hd, h1]
    simp [hb]
termination_by (sizeOf b, 1)

theorem eraseResolveMethods (st : RState) : (l : List FunctionStmt) →
    eraseMethods (resolveMethods st l).1 = eraseMethods l
  | [] => by simp [resolveMethods_nil]
  | .mk n ps b k :: ms => by
    have hb := eraseResolveFunctionBody st ps b (if n == "init" then .CONSTRUCTOR else k)
    rcases h1 : resolveFunctionBody st ps b (if n == "init" then .CONSTRUCTOR else k)
      with ⟨b', st1, e1⟩
    rw [h1] at hb
    simp only at hb
    cases e1 with
    | some err =>
      simp only [resolveMethods_cons, h1]
      cases hin : (n == "init") <;> simp [hin, eraseMethods, hb]
    | none =>
      have hms := eraseResolveMethods st1 ms
      rcases h2 : resolveMethods st1 ms with ⟨ms', st2, e2⟩
      rw [h2] at hms
      simp only at hms
      simp only [resolveMethods_cons, h1, h2]
      cases hin : (n == "init") <;> simp [hin, eraseMethods, hb, hms]
termination_by l => (sizeOf l, 0)

end

mutual

theorem fixResolveExpr (st : RState) : (e : Expr) →
    resolveExpr st (resolveExpr st e).1 = resolveExpr st e
  | .Literal => by simp [resolveExpr_Literal]
  | .Variable n d => by
    by_cases h : selfInitCheck st n
    · simp [resolveExpr_Variable, h]
    · simp [resolveExpr_Variable, h, updateDepth_idem]
  | .Assign n v d => by
    have hv := fixResolveExpr st v
    rcases h1 : resolveExpr st v with ⟨v', st1, e1⟩
    rw [h1] at hv
    simp only at hv
    cases e1 with
    | some err => simp [resolveExpr_Assign, h1, hv]
    | none => simp [resolveExpr_Assign, h1, hv, updateDepth_idem]
  | .Lambda ps b => by
    have hb := fixResolveFunctionBody st ps b .LAMDBDA
    rcases h1 : resolveFunctionBody st ps b .LAMDBDA with ⟨b', st1, r1⟩
    rw [h1] at hb
    simp only at hb
    simp [resolveExpr_Lambda, h1, hb]
  | .Binary l r => by
    have hl := fixResolveExpr st l
    rcases h1 : resolveExpr st l with ⟨l', st1, e1⟩
    rw [h1] at hl
    simp only at hl
    cases e1 with
    | some err => simp [resolveExpr_Binary, h1, hl]
    | none =>
      have hr := fixResolveExpr st1 r
      rcases h2 : resolveExpr st1 r with ⟨r', st2, e2⟩
      rw [h2] at hr
      simp only at hr
      simp [resolveExpr_Binary, h1, h2, hl, hr]
  | .Call c args => by
    have hc := fixResolveExpr st c
    rcases h1 : resolveExpr st c with ⟨c', st1, e1⟩
    rw [h1] at hc
    simp only at hc
    cases e1 with
    | some err => simp [resolveExpr_Call, h1, hc]
    | none =>
      have ha := fixResolveArgs st1 args
      rcases h2 : resolveArgs st1 args with ⟨args', st2, e2⟩
      rw [h2] at ha
      simp only at ha
      simp [resolveExpr_Call, h1, h2, hc, ha]
  | .Grouping g => by
    have hg := fixResolveExpr st g
    rcases h1 : resolveExpr st g with ⟨g', st1, e1⟩
    rw [h1] at hg
    simp only at hg
    simp [resolveExpr_Grouping, h1, hg]
  | .Logical l r => by
    have hl := fixResolveExpr st l
    rcases h1 : resolveExpr st l with ⟨l', st1, e1⟩
    rw [h1] at hl
    simp only at hl
    cases e1 with
    | some err => simp [resolveExpr_Logical, h1, hl]
    | none =>
      have hr := fixResolveExpr st1 r
      rcases h2 : resolveExpr st1 r with ⟨r', st2, e2⟩
      rw [h2] at hr
      simp only at hr
      simp [resolveExpr_Logical, h1, h2, hl, hr]
  | .Unary x => by
    have hx := fixResolveExpr st x
    rcases h1 : resolveExpr st x with ⟨x', st1, e1⟩
    rw [h1] at hx
    simp only at hx
    simp [resolveExpr_Unary, h1, hx]
  | .Ternary a b c => by
    have ha := fixResolveExpr st a
    rcases h1 : resolveExpr st a with ⟨a', st1, e1⟩
    rw [h1] at ha
    simp only at ha
    cases e1 with
    | some err => simp [resolveExpr_Ternary, h1, ha]
    | none =>
      have hb := fixResolveExpr st1 b
      rcases h2 : resolveExpr st1 b with ⟨b', st2, e2⟩
      rw [h2] at hb
      simp only at hb
      cases e2 with
      | some err => simp [resolveExpr_Ternary, h1, h2, ha, hb]
      | none =>
        have hc := fixResolveExpr st2 c
        rcases h3 : resolveExpr st2 c with ⟨c', st3, e3⟩
        rw [h3] at hc
        simp only at hc
        simp [resolveExpr_Ternary, h1, h2, h3, ha, hb, hc]
  | .Get o => by
    have ho := fixResolveExpr st o
    rcases h1 : resolveExpr st o with ⟨o', st1, e1⟩
    rw [h1] at ho
    simp only at ho
    simp [resolveExpr_Get, h1, ho]
  | .Set o v => by
    have ho := fixResolveExpr st o
    rcases h1 : resolveExpr st o with ⟨o', st1, e1⟩
    rw [h1] at ho
    simp only at ho
    cases e1 with
    | some err => simp [resolveExpr_Set, h1, ho]
    | none =>
      have hv := fixResolveExpr st1 v
      rcases h2 : resolveExpr st1 v with ⟨v', st2, e2⟩
      rw [h2] at hv
      simp only at hv
      simp [resolveExpr_Set, h1, h2, ho, hv]
  | .This n d => by
    by_cases h1 : st.classKind = .NONE
    · simp [resolveExpr_This, h1]
    · by_cases h2 : st.functionKind = some .UNBOUND
      · simp [resolveExpr_This, h1, h2]
      · simp [resolveExpr_This, h1, h2, updateDepth_idem]
  | .Empty => by simp [resolveExpr_Empty]
  | .Malformed => by simp [resolveExpr_Malformed]
termination_by e => (sizeOf e, 0)

theorem fixResolveArgs (st : RState) : (l : List Expr) →
    resolveArgs st (resolveArgs st l).1 = resolveArgs st l
  | [] => by simp [resolveArgs_nil]
  | a :: as => by
    have ha := fixResolveExpr st a
    rcases h1 : resolveExpr st a with ⟨a', st1, e1⟩
    rw [h1] at ha
    simp only at ha
    cases e1 with
    | some err => simp [resolveArgs_cons, h1, ha]
    | none =>
      have has := fixResolveArgs st1 as
      rcases h2 : resolveArgs st1 as with ⟨as', st2, e2⟩
      rw [h2] at has
      simp only at has
      simp [resolveArgs_cons, h1, h2, ha, has]
termination_by l => (sizeOf l, 0)

theorem fixResolveStmtV (st : RState) : (s : Stmt) →
    resolveStmtV st (resolveStmtV st s).1 = resolveStmtV st s
  | .ExprStmt e => by
    have he := fixResolveExpr st e
    rcases h1 : resolveExpr st e with ⟨e', st1, e1⟩
    rw [h1] at he
    simp only at he
    simp [resolveStmtV_ExprStmt, h1, he]
  | .PrintStmt e => by
    have he := fixResolveExpr st e
    rcases h1 : resolveExpr st e with ⟨e', st1, e1⟩
    rw [h1] at he
    simp only at he
    simp [resolveStmtV_PrintStmt, h1, he]
  | .VarStmt n i => by
    rcases hd : declare st n with ⟨st1, ed⟩
    cases ed with
    | some err => simp [resolveStmtV_VarStmt, hd]
    | none =>
      have hi := fixResolveExpr st1 i
      rcases h1 : resolveExpr st1 i with ⟨i', st2, e1⟩
      rw [h1] at hi
      simp only at hi
      cases e1 with
      | some err => simp [resolveStmtV_VarStmt, hd, h1, hi]
      | none => simp [resolveStmtV_VarStmt, hd, h1, hi]
  | .BlockStmt b => by
    have hb := fixResolveStmts (pushScope st) b
    rcases h1 : resolveStmts (pushScope st) b with ⟨b', st1⟩
    rw [h1] at hb
    simp only at hb
    simp [resolveStmtV_BlockStmt, h1, hb]
  | .IfStmt c t e => by
    have hc := fixResolveExpr st c
    rcases h1 : resolveExpr st c with ⟨c', st1, e1⟩
    rw [h1] at hc
    simp only at hc
    cases e1 with
    | some err => simp [resolveStmtV_IfStmt, h1, hc]
    | none =>
      have ht := fixResolveStmtTop st1 t
      rcases h2 : resolveStmtTop st1 t with ⟨t', st2⟩
      rw [h2] at ht
      simp only at ht
      have he := fixResolveStmtTop st2 e
      rcases h3 : resolveStmtTop st2 e with ⟨e', st3⟩
      rw [h3] at he
      simp only at he
      simp [resolveStmtV_IfStmt, h1, h2, h3, hc, ht, he]
  | .WhileStmt c b => by
    have hc := fixResolveExpr st c
    rcases h1 : resolveExpr st c with ⟨c', st1, e1⟩
    rw [h1] at hc
    simp only at hc
    cases e1 with
    | some err => simp [resolveStmtV_WhileStmt, h1, hc]
    | none =>
      have hb := fixResolveStmtTop st1 b
      rcases h2 : resolveStmtTop st1 b with ⟨b', st2⟩
      rw [h2] at hb
      simp only at hb
      simp [resolveStmtV_WhileStmt, h1, h2, hc, hb]
  | .FunctionDecl (.mk n ps b k) => by
    rcases hd : declare st n with ⟨st1, ed⟩
    cases ed with
    | some err => simp [resolveStmtV_FunctionDecl, hd]
    | none =>
      have hb := fixResolveFunctionBody (define st1 n) ps b k
      rcases h1 : resolveFunctionBody (define st1 n) ps b k with ⟨b', st2, r1⟩
      rw [h1] at hb
      simp only at hb
      simp [resolveStmtV_FunctionDecl, hd, h1, hb]
  | .ReturnStmt kw v => by
    by_cases hfk : st.functionKind = none
    · simp [resolveStmtV_ReturnStmt, hfk]
    · by_cases hc : st.functionKind = some .CONSTRUCTOR ∧ isEmptyE v = false
      · simp [resolveStmtV_ReturnStmt, hfk, hc]
      · have hv := fixResolveExpr st v
        rcases h1 : resolveExpr st v with ⟨v', st1, e1⟩
        rw [h1] at hv
        simp only at hv
        have hc' : ¬(st.functionKind = some .CONSTRUCTOR ∧ isEmptyE v' = false) := by
          intro hk
          apply hc
          refine ⟨hk.1, ?_⟩
          cases hev : isEmptyE v with
          | false => rfl
          | true =>
            exfalso
            have hvE : v = .Empty := (isEmptyE_true_iff v).1 hev
            subst hvE
            rw [resolveExpr_Empty] at h1
            have hv'E : v' = Expr.Empty := by
              have h2 := congrArg (fun x => x.1) h1
              simpa using h2.symm
            rw [hv'E] at hk
            simp [isEmptyE] at hk
        simp [resolveStmtV_ReturnStmt, hfk, hc, hc', h1, hv]
  | .ClassStmt n ms => by
    rcases hd : declare { st with classKind := .CLASS } n with ⟨st1, ed⟩
    cases ed with
    | some err => simp [resolveStmtV_ClassStmt, hd]
    | none =>
      have hm := fixResolveMethods
        { define st1 n with scopes := (define st1 n).scopes ++ [[("this", true)]] } ms
      rcases h1 : resolveMethods
          { define st1 n with scopes := (define st1 n).scopes ++ [[("this", true)]] } ms
        with ⟨ms', st2, r1⟩
      rw [h1] at hm
      simp only at hm
      cases r1 with
      | some err => simp [resolveStmtV_ClassStmt, hd, h1, hm]
      | none => simp [resolveStmtV_ClassStmt, hd, h1, hm]
  | .EmptyStmt => by simp [resolveStmtV_EmptyStmt]
  | .MalformedStmt => by simp [resolveStmtV_MalformedStmt]
termination_by s => (sizeOf s, 0)

theorem fixResolveStmtTop (st : RState) (s : Stmt) :
    resolveStmtTop st (resolveStmtTop st s).1 = resolveStmtTop st s := by
  have hs := fixResolveStmtV st s
  rcases h1 : resolveStmtV st s with ⟨s', st1, e1⟩
  rw [h1] at hs
  simp only at hs
  cases e1 with
  | some err => simp [resolveStmtTop_eq, h1, hs]
  | none => simp [resolveStmtTop_eq, h1, hs]
termination_by (sizeOf s, 1)

theorem fixResolveStmts (st : RState) : (l : List Stmt) →
    resolveStmts st (resolveStmts st l).1 = resolveStmts st l
  | [] => by simp [resolveStmts_nil]
  | s :: ss => by
    have hs := fixResolveStmtTop st s
    rcases h1 : resolveStmtTop st s with ⟨s', st1⟩
    rw [h1] at hs
    simp only at hs
    have hss := fixResolveStmts st1 ss
    rcases h2 : resolveStmts st1 ss with ⟨ss', st2⟩
    rw [h2] at hss
    simp only at hss
    simp [resolveStmts_cons, h1, h2, hs, hss]
termination_by l => (sizeOf l, 0)

theorem fixResolveFunctionBody (st : RState) (ps : List String) (b : List Stmt)
    (k : FunctionKind) :
    resolveFunctionBody st ps (resolveFunctionBody st ps b k).1 k
      = resolveFunctionBody st ps b k := by
  rcases hd : declareParams (pushScope { st with functionKind := some k }) ps with ⟨st1, ed⟩
  cases ed with
  | some err => simp [resolveFunctionBody_eq, hd]
  | none =>
    have hb := fixResolveStmts (pushScope st1) b
    rcases h1 : resolveStmts (pushScope st1) b with ⟨b', st2⟩
    rw [h1] at hb
    simp only at hb
    simp [resolveFunctionBody_eq, hd, h1, hb]
termination_by (sizeOf b, 1)

theorem fixResolveMethods (st : RState) : (l : List FunctionStmt) →
    resolveMethods st (resolveMethods st l).1 = resolveMethods st l
  | [] => by simp [resolveMethods_nil]
  | .mk n ps b k :: ms => by
    cases hin : (n == "init") with
    | true =>
      have hb := fixResolveFunctionBody st ps b .CONSTRUCTOR
      rcases h1 : resolveFunctionBody st ps b .CONSTRUCTOR with ⟨b', st1, e1⟩
      rw [h1] at hb
      simp only at hb
      cases e1 with
      | some err => simp [resolveMethods_cons, hin, h1, hb]
      | none =>
        have hms := fixResolveMethods st1 ms
        rcases h2 : resolveMethods st1 ms with ⟨ms', st2, e2⟩
        rw [h2] at hms
        simp only at hms
        simp [resolveMethods_cons, hin, h1, h2, hb, hms]
    | false =>
      have hb := fixResolveFunctionBody st ps b k
      rcases h1 : resolveFunctionBody st ps b k with ⟨b', st1, e1⟩
      rw [h1] at hb
      simp only at hb
      cases e1 with
      | some err => simp [resolveMethods_cons, hin, h1, hb]
      | none =>
        have hms := fixResolveMethods st1 ms
        rcases h2 : resolveMethods st1 ms with ⟨ms', st2, e2⟩
        rw [h2] at hms
        simp only at hms
        simp [resolveMethods_cons, hin, h1, h2, hb, hms]
termination_by l => (sizeOf l, 0)

end

/-- C7 counterexample: resolving `class C { init() {} }` rewrites the
`init` method's function-kind field from `FUNCTION` to `CONSTRUCTOR` —
part of the AST other than a resolved-depth slot is changed by the
resolver, refuting the claim that only depth fields are mutated. -/
theorem resolver_overwrites_init_method_kind :
    (resolveProgram [.ClassStmt "C" [.mk "init" [] [] .FUNCTION]]).1
      = [.ClassStmt "C" [.mk "init" [] [] .CONSTRUCTOR]]
    ∧ FunctionKind.CONSTRUCTOR ≠ FunctionKind.FUNCTION := by
  constructor
  · simp [resolveProgram, resolveStmts_cons, resolveStmts_nil, resolveStmtTop_eq,
      resolveStmtV_ClassStmt, resolveMethods_cons, resolveMethods_nil,
      resolveFunctionBody_eq, declareParams, declare, define, pushScope, popScope,
      initialRState, backScope, scopeContains, scopeAssign, modifyBack]
  · decide

/-- C7 amended: the resolution pass changes the AST only in the
resolved-depth fields of `Variable`/`Assign`/`This` nodes and in the
function-kind field of class methods named `init` (which it sets to
`CONSTRUCTOR`); after erasing exactly those fields, the output of resolving
any program (and of resolving any single statement from any resolver
state) is identical to its input. -/
theorem resolver_mutates_only_depths_and_init_kinds :
    (∀ p : List Stmt, eraseStmts (resolveProgram p).1 = eraseStmts p)
    ∧ (∀ (st : RState) (s : Stmt), eraseStmt (resolveStmtTop st s).1 = eraseStmt s) :=
  ⟨fun p => eraseResolveStmts initialRState p, fun st s => eraseResolveStmtTop st s⟩

/-- C8: running the resolution pass a second time over the already
annotated output of a first run — each run starting from a fresh resolver
— reproduces that output exactly: identical depth annotations on every
reference node (and identical diagnostics and final state).  This holds
for every program, in particular for those without free variables. -/
theorem resolve_twice_equals_resolve_once :
    ∀ p : List Stmt, resolveProgram (resolveProgram p).1 = resolveProgram p :=
  fun p => fixResolveStmts initialRState p
